import Mathlib

/-!
Shallow embedding of the grythm grid-rhythm engine.

The Go sources are `main.go` (game state, touch detection, motion
integration, rendering) and the vector primitives file (`Vec2`).  Go
`float64` values are modelled as elements of a linear ordered field with a
floor function; the arithmetic definitions below are generic in that field
(so they are executable on `ℚ`) and the claims are stated at `ℝ`.  The two
functions that involve `math.Hypot`/`math.Sqrt` (`Vec2.Len`, `Vec2.Norm`)
are defined at `ℝ` with `Real.sqrt`.  Render-only color data is omitted.
-/

/-! ## Vector primitives (Vec2 source file) -/

structure Vec2 (α : Type) where
  X : α
  Y : α

namespace Vec2

variable {α : Type} [LinearOrderedField α]

/-- Source: `func (a Vec2) Add(b Vec2) Vec2 { return Vec2{a.X + b.X, a.Y + b.Y} }` -/
def Add (a b : Vec2 α) : Vec2 α := ⟨a.X + b.X, a.Y + b.Y⟩

/-- Source: `func (a Vec2) Sub(b Vec2) Vec2 { return Vec2{a.X - b.X, a.Y - b.Y} }` -/
def Sub (a b : Vec2 α) : Vec2 α := ⟨a.X - b.X, a.Y - b.Y⟩

/-- Source: `func (a Vec2) Mul(s float64) Vec2 { return Vec2{a.X * s, a.Y * s} }` -/
def Mul (a : Vec2 α) (s : α) : Vec2 α := ⟨a.X * s, a.Y * s⟩

/-- Source: `func (a Vec2) Dot(b Vec2) float64 { return a.X*b.X + a.Y*b.Y }` -/
def Dot (a b : Vec2 α) : α := a.X * b.X + a.Y * b.Y

/-- Source: `func (a Vec2) Perp() Vec2 { return Vec2{-a.Y, a.X} }` -/
def Perp (a : Vec2 α) : Vec2 α := ⟨-a.Y, a.X⟩

/-- Source: `func (a Vec2) Len() float64 { return math.Hypot(a.X, a.Y) }`;
`math.Hypot(p, q)` is `sqrt(p*p + q*q)`. -/
noncomputable def Len (a : Vec2 ℝ) : ℝ := Real.sqrt (a.X * a.X + a.Y * a.Y)

/-- Source: `func (a Vec2) Norm() Vec2`: returns `{0, 0}` when the length is zero,
otherwise divides both components by the length. -/
noncomputable def Norm (a : Vec2 ℝ) : Vec2 ℝ :=
  if Len a = 0 then ⟨0, 0⟩ else ⟨a.X / Len a, a.Y / Len a⟩

end Vec2

/-! ## Rounding and remainder primitives (Go math library semantics) -/

/-- Go `math.Round`: nearest integer, rounding half away from zero.  For
`x ≥ 0` this is `⌊x + 1/2⌋` (Mathlib `round`); for `x < 0` it is the
negation of the rounding of `-x`. -/
def goRound {α : Type} [LinearOrderedField α] [FloorRing α] (x : α) : ℤ :=
  if x < 0 then -round (-x) else round x

/-- Truncation toward zero, as Go's float-to-int conversion and the
truncated division underlying `math.Mod`. -/
def trunc {α : Type} [LinearOrderedField α] [FloorRing α] (x : α) : ℤ :=
  if x < 0 then ⌈x⌉ else ⌊x⌋

/-- Go `math.Mod x y` for a nonzero modulus: the truncated-division
remainder `x - y * trunc (x / y)`, whose sign agrees with `x` and whose
magnitude is below `|y|`. -/
def goMod {α : Type} [LinearOrderedField α] [FloorRing α] (x y : α) : α :=
  x - y * (trunc (x / y) : α)

/-- The double-mod normalization used at `main.go:198`:
`m := math.Mod(math.Mod(pos, period)+period, period)`. -/
def dashNorm {α : Type} [LinearOrderedField α] [FloorRing α] (pos period : α) : α :=
  goMod (goMod pos period + period) period

/-! ## Grid family data model (main.go lines 15-26; color field omitted) -/

structure GridFamily (α : Type) where
  Normal : Vec2 α
  Spacing : α
  Offset : α
  Thickness : α
  DashLength : α
  GapLength : α
  DashPhase : α

section Detector

variable {α : Type} [LinearOrderedField α] [FloorRing α]

/-! ## Touch detection (Game.Update, main.go lines 166-206)

`center` and `diag` are the values `Vec2{W/2, H/2}` and `Hypot(W, H)`
computed once at the top of the loop; they enter the per-point formulas
only as parameters. -/

/-- Source: `dAlong := gf.Normal.Dot(p.Sub(center))` (main.go:174). -/
def detDAlong (gf : GridFamily α) (center p : Vec2 α) : α :=
  gf.Normal.Dot (p.Sub center)

/-- Source: `k := math.Round((dAlong - gf.Offset) / gf.Spacing)` (main.go:176). -/
def nearestK (spacing offset dAlong : α) : ℤ :=
  goRound ((dAlong - offset) / spacing)

/-- Source: `closest := (k * gf.Spacing) + gf.Offset` (main.go:177). -/
def closestLine (spacing offset dAlong : α) : α :=
  (nearestK spacing offset dAlong : α) * spacing + offset

/-- Source: `dist := math.Abs(dAlong - closest)` (main.go:179), as a function of
the projected coordinate. -/
def lineDist (spacing offset dAlong : α) : α :=
  |dAlong - closestLine spacing offset dAlong|

/-- The detector's `closest` for a concrete family and point. -/
def detClosest (gf : GridFamily α) (center p : Vec2 α) : α :=
  closestLine gf.Spacing gf.Offset (detDAlong gf center p)

/-- The detector's `dist` for a concrete family and point. -/
def detDist (gf : GridFamily α) (center p : Vec2 α) : α :=
  |detDAlong gf center p - detClosest gf center p|

/-- Source: `pt := center.Add(n.Mul(closest))` (main.go:191). -/
def detPt (gf : GridFamily α) (center p : Vec2 α) : Vec2 α :=
  center.Add (gf.Normal.Mul (detClosest gf center p))

/-- Source: `s0 := t.Dot(p.Sub(pt))` (main.go:193). -/
def detS0 (gf : GridFamily α) (center p : Vec2 α) : α :=
  gf.Normal.Perp.Dot (p.Sub (detPt gf center p))

/-- Source: `pos := diag - s0 - gf.DashPhase` (main.go:195). -/
def detPos (gf : GridFamily α) (center : Vec2 α) (diag : α) (p : Vec2 α) : α :=
  diag - detS0 gf center p - gf.DashPhase

/-- Source: `m` of main.go:198 for a concrete family and point, with
`period := gf.DashLength + gf.GapLength` (main.go:196). -/
def detM (gf : GridFamily α) (center : Vec2 α) (diag : α) (p : Vec2 α) : α :=
  dashNorm (detPos gf center diag p) (gf.DashLength + gf.GapLength)

/-- The `inside` flag of main.go lines 182-200: distance test against the
thickness, then - for dashed families only - the drawn-segment test
`m < gf.DashLength`. -/
def pointInside (gf : GridFamily α) (center : Vec2 α) (diag : α) (p : Vec2 α) : Bool :=
  if detDist gf center p ≤ gf.Thickness then
    if gf.DashLength ≤ 0 ∨ gf.GapLength ≤ 0 then true
    else decide (detM gf center diag p < gf.DashLength)
  else false

/-! ## Motion integration (Game.Update, main.go lines 152-164) -/

/-- One tick of the motion integrator for one family:
`Offset += n.Dot(step)` and `DashPhase -= n.Perp().Dot(step)`. -/
def advanceFamily (gf : GridFamily α) (step : Vec2 α) : GridFamily α :=
  { gf with
      Offset := gf.Offset + gf.Normal.Dot step
      DashPhase := gf.DashPhase - gf.Normal.Perp.Dot step }

end Detector

/-! ## Edge-triggered events (main.go lines 203-206) -/

/-- Source: `inside && !g.lastInside[gi][pi]`: whether a blip is emitted for one
(family, point) cell this tick. -/
def tickTrigger (lastVal inside : Bool) : Bool := inside && !lastVal

/-- Number of blips emitted for one cell over a sequence of ticks whose
computed `inside` values are given, starting from stored value `lastVal`;
each tick overwrites the stored value with the new `inside`
(`g.lastInside[gi][pi] = inside`). -/
def runCellCount : Bool → List Bool → ℕ
  | _, [] => 0
  | lastVal, i :: rest => (if tickTrigger lastVal i then 1 else 0) + runCellCount i rest

/-! ## Point set bookkeeping (main.go lines 109-126 and 65-68) -/

/-- The parallel collections `g.Points` and `g.lastInside` (rows indexed
by grid family). -/
structure TouchTable (α : Type) where
  Points : List (Vec2 α)
  lastInside : List (List Bool)

/-- Point insertion (main.go lines 120-125): append the point and append
`false` to every family's row. -/
def addPoint {α : Type} (s : TouchTable α) (mouse : Vec2 α) : TouchTable α :=
  ⟨s.Points ++ [mouse], s.lastInside.map (fun row => row ++ [false])⟩

/-- Point removal (main.go lines 111-117): `append(xs[:idx], xs[idx+1:]...)`
on the point list and on every row, i.e. deletion at `idx`. -/
def removePoint {α : Type} (s : TouchTable α) (idx : ℕ) : TouchTable α :=
  ⟨s.Points.eraseIdx idx, s.lastInside.map (fun row => row.eraseIdx idx)⟩

inductive PointOp (α : Type) where
  | add (p : Vec2 α)
  | remove (idx : ℕ)

def applyOp {α : Type} (s : TouchTable α) : PointOp α → TouchTable α
  | .add p => addPoint s p
  | .remove idx => removePoint s idx

def applyOps {α : Type} (s : TouchTable α) (ops : List (PointOp α)) : TouchTable α :=
  ops.foldl applyOp s

/-- The shape invariant: as many rows as families, every row as long as
the point list. -/
def shapeOK {α : Type} (nf : ℕ) (s : TouchTable α) : Bool :=
  s.lastInside.length == nf && s.lastInside.all (fun row => row.length == s.Points.length)

/-! ## Initial configuration (NewGame, main.go lines 48-87) -/

/-- First default family: `Normal: Vec2{1, 0}.Norm(), Spacing: 60,
Offset: 0, Thickness: 2, GapLength: 60, DashLength: 60` (DashPhase zero
by default). -/
noncomputable def grid0 : GridFamily ℝ :=
  { Normal := Vec2.Norm ⟨1, 0⟩, Spacing := 60, Offset := 0, Thickness := 2,
    DashLength := 60, GapLength := 60, DashPhase := 0 }

/-- Second default family: `Normal: Vec2{0, 1}.Norm(), Spacing: 60,
Offset: 0, Thickness: 2` (dash fields zero by default, i.e. solid). -/
noncomputable def grid1 : GridFamily ℝ :=
  { Normal := Vec2.Norm ⟨0, 1⟩, Spacing := 60, Offset := 0, Thickness := 2,
    DashLength := 0, GapLength := 0, DashPhase := 0 }

noncomputable def NewGameGrids : List (GridFamily ℝ) := [grid0, grid1]

/-- The five fixed points of `NewGame` with `w, h = 960, 640`. -/
noncomputable def NewGamePoints : List (Vec2 ℝ) :=
  [⟨960 * 0.25, 640 * 0.5⟩, ⟨960 * 0.5, 640 * 0.5⟩, ⟨960 * 0.75, 640 * 0.5⟩,
   ⟨960 * 0.5, 640 * 0.25⟩, ⟨960 * 0.5, 640 * 0.75⟩]

/-- Source: `last := make([][]bool, len(grids))` with each row
`make([]bool, len(points))` (main.go lines 65-68), paired with the point
list. -/
noncomputable def NewGameTouch : TouchTable ℝ :=
  ⟨NewGamePoints, List.replicate NewGameGrids.length (List.replicate NewGamePoints.length false)⟩

/-- A degenerate family the program could build from a zero-length normal,
a non-positive spacing and a negative thickness; `GridFamily` is a plain
struct and nothing validates it. -/
noncomputable def degFamily : GridFamily ℝ :=
  { Normal := Vec2.Norm ⟨0, 0⟩, Spacing := -60, Offset := 0, Thickness := -1,
    DashLength := 0, GapLength := 0, DashPhase := 0 }

/-! ## Renderer (Game.Draw, main.go lines 213-239, and drawDashedLine,
main.go lines 270-292) -/

section Renderer

variable {α : Type} [LinearOrderedField α] [FloorRing α]

/-- Source: `kMin := int(math.Floor((-maxD-gf.Offset)/gf.Spacing)) - 1` with
`maxD = diag` (main.go:224). -/
def kMinOf (gf : GridFamily α) (diag : α) : ℤ :=
  ⌊(-diag - gf.Offset) / gf.Spacing⌋ - 1

/-- Source: `kMax := int(math.Ceil((maxD-gf.Offset)/gf.Spacing)) + 1` (main.go:225). -/
def kMaxOf (gf : GridFamily α) (diag : α) : ℤ :=
  ⌈(diag - gf.Offset) / gf.Spacing⌉ + 1

/-- Source: `d := float64(k)*gf.Spacing + gf.Offset; pt := center.Add(n.Mul(d))`
(main.go lines 227-228). -/
def linePoint (gf : GridFamily α) (center : Vec2 α) (k : ℤ) : Vec2 α :=
  center.Add (gf.Normal.Mul ((k : α) * gf.Spacing + gf.Offset))

/-- The tangential shift (main.go lines 230-233): `t.Mul(gf.DashPhase)`
for dashed families, zero otherwise. -/
def dashShift (gf : GridFamily α) : Vec2 α :=
  if 0 < gf.DashLength ∧ 0 < gf.GapLength then gf.Normal.Perp.Mul gf.DashPhase else ⟨0, 0⟩

/-- Source: `p1 := pt.Add(t.Mul(diag)).Sub(shift)` (main.go:234). -/
def rendP1 (gf : GridFamily α) (center : Vec2 α) (diag : α) (k : ℤ) : Vec2 α :=
  ((linePoint gf center k).Add (gf.Normal.Perp.Mul diag)).Sub (dashShift gf)

/-- Source: `p2 := pt.Sub(t.Mul(diag)).Sub(shift)` (main.go:235). -/
def rendP2 (gf : GridFamily α) (center : Vec2 α) (diag : α) (k : ℤ) : Vec2 α :=
  ((linePoint gf center k).Sub (gf.Normal.Perp.Mul diag)).Sub (dashShift gf)

end Renderer

/-- The set of points covered by one stroked segment from `a` to `b`
(`vector.StrokeLine` draws the closed segment). -/
def StrokeCovers (a b q : Vec2 ℝ) : Prop :=
  ∃ c : ℝ, 0 ≤ c ∧ c ≤ 1 ∧ q = a.Add ((b.Sub a).Mul c)

/-- The set of points covered by `drawDashedLine(p1, p2, dash, gap)`
(main.go lines 270-292): nothing when `L ≤ 0`; the full segment when
`dash ≤ 0` or `gap ≤ 0`; otherwise the `j`-th loop iteration has
`pos = j*(dash+gap)`, runs while `pos < L`, and strokes from
`p1 + u*pos` to `p1 + u*min(pos+dash, L)` with `u = (p2-p1)/L`. -/
def DashedLineCovers (p1 p2 : Vec2 ℝ) (dash gap : ℝ) (q : Vec2 ℝ) : Prop :=
  0 < (p2.Sub p1).Len ∧
    (if dash ≤ 0 ∨ gap ≤ 0 then StrokeCovers p1 p2 q
     else ∃ j : ℕ, (j : ℝ) * (dash + gap) < (p2.Sub p1).Len ∧
       StrokeCovers
         (p1.Add (((p2.Sub p1).Mul (1 / (p2.Sub p1).Len)).Mul ((j : ℝ) * (dash + gap))))
         (p1.Add (((p2.Sub p1).Mul (1 / (p2.Sub p1).Len)).Mul
           (min ((j : ℝ) * (dash + gap) + dash) ((p2.Sub p1).Len))))
         q)

/-- The set of points the renderer emits for a family: some line index in
the drawn range `kMin..kMax`, with the dashed stroke pattern anchored at
`p1` (Game.Draw, main.go lines 219-238). -/
def rendererEmits (gf : GridFamily ℝ) (center : Vec2 ℝ) (diag : ℝ) (q : Vec2 ℝ) : Prop :=
  ∃ k : ℤ, kMinOf gf diag ≤ k ∧ k ≤ kMaxOf gf diag ∧
    DashedLineCovers (rendP1 gf center diag k) (rendP2 gf center diag k)
      gf.DashLength gf.GapLength q

/-! ## Arithmetic lemmas about the Go rounding and remainder primitives -/

section RoundLemmas

variable {α : Type} [LinearOrderedField α] [FloorRing α]

theorem abs_sub_goRound (x : α) : |x - (goRound x : α)| ≤ 1 / 2 := by
  unfold goRound
  by_cases h : x < 0
  · rw [if_pos h]
    push_cast
    rw [show x - -(round (-x) : α) = -(-x - (round (-x) : α)) by ring, abs_neg]
    exact abs_sub_round (-x)
  · rw [if_neg h]
    exact abs_sub_round x

theorem goRound_min (x : α) (z : ℤ) : |x - (goRound x : α)| ≤ |x - (z : α)| := by
  by_contra hcon
  push_neg at hcon
  have h1 : |x - (z : α)| < 1 / 2 := lt_of_lt_of_le hcon (abs_sub_goRound x)
  have h2 : |(z : α) - (goRound x : α)| < 1 := by
    calc |(z : α) - (goRound x : α)|
        ≤ |(z : α) - x| + |x - (goRound x : α)| := abs_sub_le _ _ _
      _ < 1 / 2 + 1 / 2 := by
          refine add_lt_add_of_lt_of_le ?_ (abs_sub_goRound x)
          rw [abs_sub_comm]; exact h1
      _ = 1 := by norm_num
  have h3 : |z - goRound x| < (1 : ℤ) := by
    have : |((z - goRound x : ℤ) : α)| < 1 := by push_cast; exact h2
    rw [← Int.cast_abs] at this
    exact_mod_cast this
  have h4 : z = goRound x := by
    have := Int.abs_lt_one_iff.mp h3
    omega
  rw [h4] at hcon
  exact lt_irrefl _ hcon

theorem goRound_intCast (n : ℤ) : goRound ((n : α)) = n := by
  unfold goRound
  by_cases h : (n : α) < 0
  · rw [if_pos h, show (-(n : α)) = ((-n : ℤ) : α) by push_cast; ring, round_intCast]
    omega
  · rw [if_neg h, round_intCast]

theorem trunc_of_nonneg {x : α} (h : 0 ≤ x) : trunc x = ⌊x⌋ := by
  unfold trunc
  rw [if_neg (not_lt.mpr h)]

theorem goMod_of_nonneg {x y : α} (hy : 0 < y) (hx : 0 ≤ x) :
    goMod x y = y * Int.fract (x / y) := by
  unfold goMod
  rw [trunc_of_nonneg (div_nonneg hx hy.le), Int.fract]
  field_simp

theorem goMod_eq_floor {x y : α} (hy : 0 < y) (hx : 0 ≤ x) :
    goMod x y = x - y * (⌊x / y⌋ : α) := by
  unfold goMod
  rw [trunc_of_nonneg (div_nonneg hx hy.le)]

theorem goMod_nonneg {x y : α} (hy : 0 < y) (hx : 0 ≤ x) : 0 ≤ goMod x y := by
  rw [goMod_of_nonneg hy hx]
  exact mul_nonneg hy.le (Int.fract_nonneg _)

theorem goMod_lt {x y : α} (hy : 0 < y) (hx : 0 ≤ x) : goMod x y < y := by
  rw [goMod_of_nonneg hy hx]
  calc y * Int.fract (x / y) < y * 1 := by
        exact mul_lt_mul_of_pos_left (Int.fract_lt_one _) hy
    _ = y := mul_one y

theorem neg_lt_goMod (x : α) {y : α} (hy : 0 < y) : -y < goMod x y := by
  by_cases hx : 0 ≤ x
  · exact lt_of_lt_of_le (neg_neg_of_pos hy) (goMod_nonneg hy hx)
  · push_neg at hx
    unfold goMod trunc
    rw [if_pos (div_neg_of_neg_of_pos hx hy)]
    have h1 : (⌈x / y⌉ : α) < x / y + 1 := Int.ceil_lt_add_one (x / y)
    have h2 : y * (⌈x / y⌉ : α) < y * (x / y + 1) := mul_lt_mul_of_pos_left h1 hy
    have h3 : y * (x / y + 1) = x + y := by field_simp
    nlinarith

theorem goMod_add_div_pos {x y : α} (hy : 0 < y) : 0 ≤ (goMod x y + y) / y :=
  div_nonneg (by have := neg_lt_goMod x hy; linarith) hy.le

theorem dashNorm_nonneg (pos : α) {period : α} (hp : 0 < period) :
    0 ≤ dashNorm pos period := by
  unfold dashNorm
  exact goMod_nonneg hp (by have := neg_lt_goMod pos hp; linarith)

theorem dashNorm_lt (pos : α) {period : α} (hp : 0 < period) :
    dashNorm pos period < period := by
  unfold dashNorm
  exact goMod_lt hp (by have := neg_lt_goMod pos hp; linarith)

theorem dashNorm_congr (pos period : α) :
    ∃ n : ℤ, pos - dashNorm pos period = (n : α) * period := by
  refine ⟨trunc (pos / period) + trunc ((goMod pos period + period) / period) - 1, ?_⟩
  unfold dashNorm goMod
  push_cast
  ring

theorem dashNorm_of_nonneg {pos period : α} (hp : 0 < period) (hpos : 0 ≤ pos) :
    dashNorm pos period = pos - period * (⌊pos / period⌋ : α) := by
  have hm0 : goMod pos period = pos - period * (⌊pos / period⌋ : α) :=
    goMod_eq_floor hp hpos
  have hm0nn : 0 ≤ goMod pos period := goMod_nonneg hp hpos
  have hm0lt : goMod pos period < period := goMod_lt hp hpos
  have harg : 0 ≤ goMod pos period + period := by linarith
  have hfloor : ⌊(goMod pos period + period) / period⌋ = 1 := by
    rw [Int.floor_eq_iff]
    constructor
    · push_cast
      rw [le_div_iff₀ hp]
      linarith
    · push_cast
      rw [div_lt_iff₀ hp]
      linarith
  unfold dashNorm
  rw [goMod_eq_floor hp harg, hfloor, hm0]
  push_cast
  ring

end RoundLemmas

/-! ## Distance-to-line normalization -/

theorem dist_to_line {α : Type} [LinearOrderedField α] {spacing : α} (hs : 0 < spacing)
    (offset dAlong : α) (z : ℤ) :
    |dAlong - ((z : α) * spacing + offset)| =
      |(dAlong - offset) / spacing - (z : α)| * spacing := by
  rw [show |(dAlong - offset) / spacing - (z : α)| * spacing
      = |(dAlong - offset) / spacing - (z : α)| * |spacing| by rw [abs_of_pos hs]]
  rw [← abs_mul]
  congr 1
  field_simp
  ring

/-- Claim C1: for every real `dAlong` and `offset` and every `spacing > 0`,
the value `closest = k*spacing + offset` computed with
`k = round((dAlong - offset) / spacing)` (main.go lines 176-177) minimizes
the distance `|dAlong - (k'*spacing + offset)|` over all integers `k'`;
no other integer yields a strictly smaller distance. -/
theorem claim_C1_nearest_line (dAlong offset spacing : ℝ) (hs : 0 < spacing) (k' : ℤ) :
    lineDist spacing offset dAlong ≤ |dAlong - ((k' : ℝ) * spacing + offset)| := by
  have h1 : lineDist spacing offset dAlong
      = |(dAlong - offset) / spacing - (nearestK spacing offset dAlong : ℝ)| * spacing := by
    unfold lineDist closestLine
    exact dist_to_line hs offset dAlong _
  rw [h1, dist_to_line hs offset dAlong k']
  refine mul_le_mul_of_nonneg_right ?_ hs.le
  unfold nearestK
  exact goRound_min _ k'

/-- Witness for C1 at `dAlong = 30`, `offset = 0`, `spacing = 60`,
`k' = 2`. -/
theorem claim_C1_nearest_line_witness :
    (0 : ℝ) < 60 ∧ lineDist (60 : ℝ) 0 30 ≤ |(30 : ℝ) - (((2 : ℤ) : ℝ) * 60 + 0)| :=
  ⟨by norm_num, claim_C1_nearest_line 30 0 60 (by norm_num) 2⟩

/-- Claim C6: for every real `pos` and every `period > 0`, the computed
`m = mod(mod(pos, period) + period, period)` (main.go:198) satisfies
`0 ≤ m < period` and `m` is congruent to `pos` modulo `period`. -/
theorem claim_C6_dash_modulo (pos period : ℝ) (hp : 0 < period) :
    0 ≤ dashNorm pos period ∧ dashNorm pos period < period ∧
      ∃ n : ℤ, pos - dashNorm pos period = (n : ℝ) * period :=
  ⟨dashNorm_nonneg pos hp, dashNorm_lt pos hp, dashNorm_congr pos period⟩

/-- Witness for C6 at `pos = -50`, `period = 120`. -/
theorem claim_C6_dash_modulo_witness :
    (0 : ℝ) < 120 ∧ (0 ≤ dashNorm (-50 : ℝ) 120 ∧ dashNorm (-50 : ℝ) 120 < 120 ∧
      ∃ n : ℤ, (-50 : ℝ) - dashNorm (-50 : ℝ) 120 = (n : ℝ) * 120) :=
  ⟨by norm_num, claim_C6_dash_modulo (-50) 120 (by norm_num)⟩

/-- Claim C5: on every tick, for every family, the integrator adds
`normal · step` to `Offset` and subtracts `perp(normal) · step` from
`DashPhase` (main.go lines 152-164); for `step = (10, 0)` and
`normal = (0, 1)` the offset is unchanged and the dash phase changes by
exactly the full tangential projection (magnitude 10). -/
theorem claim_C5_motion_decomposition (gf : GridFamily ℝ) (step : Vec2 ℝ) :
    (advanceFamily gf step).Offset = gf.Offset + gf.Normal.Dot step ∧
    (advanceFamily gf step).DashPhase = gf.DashPhase - gf.Normal.Perp.Dot step ∧
    (gf.Normal = ⟨0, 1⟩ →
      (advanceFamily gf ⟨10, 0⟩).Offset = gf.Offset ∧
      (advanceFamily gf ⟨10, 0⟩).DashPhase = gf.DashPhase + 10) := by
  refine ⟨rfl, rfl, fun h => ⟨?_, ?_⟩⟩
  · show gf.Offset + gf.Normal.Dot ⟨10, 0⟩ = gf.Offset
    rw [h]
    simp [Vec2.Dot]
  · show gf.DashPhase - gf.Normal.Perp.Dot ⟨10, 0⟩ = gf.DashPhase + 10
    rw [h]
    simp [Vec2.Perp, Vec2.Dot]

/-- A concrete dashed family with normal `(0, 1)` for the C5 witness. -/
noncomputable def c5fam : GridFamily ℝ :=
  { Normal := ⟨0, 1⟩, Spacing := 60, Offset := 5, Thickness := 2,
    DashLength := 60, GapLength := 60, DashPhase := 7 }

/-- Witness for C5 on `c5fam` with `step = (10, 0)`. -/
theorem claim_C5_motion_decomposition_witness :
    c5fam.Normal = ⟨0, 1⟩ ∧ (advanceFamily c5fam ⟨10, 0⟩).Offset = c5fam.Offset ∧
      (advanceFamily c5fam ⟨10, 0⟩).DashPhase = c5fam.DashPhase + 10 :=
  ⟨rfl, (claim_C5_motion_decomposition c5fam ⟨10, 0⟩).2.2 rfl⟩

/-! ## Edge-trigger run lemmas -/

theorem runCellCount_true_true (n : ℕ) : runCellCount true (List.replicate n true) = 0 := by
  induction n with
  | zero => rfl
  | succ n ih => simpa [List.replicate_succ, runCellCount, tickTrigger] using ih

theorem runCellCount_all_false (n : ℕ) (lastVal : Bool) :
    runCellCount lastVal (List.replicate n false) = 0 := by
  induction n generalizing lastVal with
  | zero => rfl
  | succ n ih => simpa [List.replicate_succ, runCellCount, tickTrigger] using ih false

/-- Claim C3: for every (family, point) cell at every tick, a blip is
emitted iff the newly computed `inside` is true and the stored previous
value was false (main.go:203), and the stored value is overwritten with
the new `inside` before the next tick (main.go:206, captured by the
recursion threading the new value); consequently a cell held inside for
`N ≥ 1` consecutive ticks fires exactly one trigger, and a cell held
outside fires zero triggers from any starting state. -/
theorem claim_C3_edge_triggered :
    (∀ lastVal inside : Bool,
      tickTrigger lastVal inside = true ↔ inside = true ∧ lastVal = false) ∧
    (∀ (lastVal i : Bool) (rest : List Bool),
      runCellCount lastVal (i :: rest)
        = (if tickTrigger lastVal i then 1 else 0) + runCellCount i rest) ∧
    (∀ N : ℕ, 0 < N → runCellCount false (List.replicate N true) = 1) ∧
    (∀ (N : ℕ) (lastVal : Bool), runCellCount lastVal (List.replicate N false) = 0) := by
  refine ⟨?_, fun _ _ _ => rfl, ?_, fun N lastVal => runCellCount_all_false N lastVal⟩
  · intro lastVal inside
    cases lastVal <;> cases inside <;> simp [tickTrigger]
  · intro N hN
    match N, hN with
    | (n + 1), _ =>
      simp [List.replicate_succ, runCellCount, tickTrigger, runCellCount_true_true n]

/-- Witness for C3 at `N = 3`. -/
theorem claim_C3_edge_triggered_witness :
    0 < 3 ∧ runCellCount false (List.replicate 3 true) = 1 :=
  ⟨by norm_num, claim_C3_edge_triggered.2.2.1 3 (by norm_num)⟩

/-- Claim C2: for every family and point, the computed `inside` flag is
true iff `dist ≤ thickness` and, additionally, when the family is dashed
(`DashLength > 0` and `GapLength > 0`), the normalized dash coordinate
`m` of `pos = diag - t·(p - pt) - dashPhase` satisfies `m < DashLength`
(strict, half-open); when `DashLength ≤ 0` or `GapLength ≤ 0` the
distance test alone decides membership. -/
theorem claim_C2_band_membership (gf : GridFamily ℝ) (center : Vec2 ℝ) (diag : ℝ)
    (p : Vec2 ℝ) :
    (pointInside gf center diag p = true ↔
      detDist gf center p ≤ gf.Thickness ∧
        (0 < gf.DashLength ∧ 0 < gf.GapLength → detM gf center diag p < gf.DashLength)) ∧
    (gf.DashLength ≤ 0 ∨ gf.GapLength ≤ 0 →
      (pointInside gf center diag p = true ↔ detDist gf center p ≤ gf.Thickness)) := by
  unfold pointInside
  by_cases hdist : detDist gf center p ≤ gf.Thickness
  · rw [if_pos hdist]
    by_cases hsolid : gf.DashLength ≤ 0 ∨ gf.GapLength ≤ 0
    · rw [if_pos hsolid]
      refine ⟨⟨fun _ => ⟨hdist, fun hd => ?_⟩, fun _ => rfl⟩,
        fun _ => ⟨fun _ => hdist, fun _ => rfl⟩⟩
      rcases hsolid with h | h
      · exact absurd hd.1 (not_lt.mpr h)
      · exact absurd hd.2 (not_lt.mpr h)
    · rw [if_neg hsolid]
      push_neg at hsolid
      refine ⟨?_, fun hcon => absurd hcon ?_⟩
      · rw [decide_eq_true_eq]
        exact ⟨fun hm => ⟨hdist, fun _ => hm⟩, fun h => h.2 ⟨hsolid.1, hsolid.2⟩⟩
      · exact not_or.mpr ⟨not_le.mpr hsolid.1, not_le.mpr hsolid.2⟩
  · rw [if_neg hdist]
    refine ⟨⟨fun h => absurd h (by simp), fun h => absurd h.1 hdist⟩,
      fun _ => ⟨fun h => absurd h (by simp), fun h => absurd h hdist⟩⟩

/-- Witness for C2's solid-family component on the second default family
(`DashLength = 0`). -/
theorem claim_C2_band_membership_witness :
    (grid1.DashLength ≤ 0 ∨ grid1.GapLength ≤ 0) ∧
      (pointInside grid1 ⟨0, 0⟩ 100 ⟨0, 50⟩ = true ↔
        detDist grid1 ⟨0, 0⟩ ⟨0, 50⟩ ≤ grid1.Thickness) :=
  ⟨Or.inl (le_of_eq rfl),
    (claim_C2_band_membership grid1 ⟨0, 0⟩ 100 ⟨0, 50⟩).2 (Or.inl (le_of_eq rfl))⟩

/-! ## Shape-invariant lemmas -/

theorem shapeOK_applyOp {α : Type} (s : TouchTable α) (nf : ℕ) (op : PointOp α)
    (h : shapeOK nf s = true) : shapeOK nf (applyOp s op) = true := by
  cases op with
  | add p =>
    simp only [shapeOK, applyOp, addPoint, List.all_eq_true, beq_iff_eq,
      Bool.and_eq_true] at h ⊢
    obtain ⟨h1, h2⟩ := h
    refine ⟨by simpa using h1, ?_⟩
    intro row hrow
    simp only [List.mem_map] at hrow
    obtain ⟨r, hr, rfl⟩ := hrow
    simp [h2 r hr]
  | remove idx =>
    simp only [shapeOK, applyOp, removePoint, List.all_eq_true, beq_iff_eq,
      Bool.and_eq_true] at h ⊢
    obtain ⟨h1, h2⟩ := h
    refine ⟨by simpa using h1, ?_⟩
    intro row hrow
    simp only [List.mem_map] at hrow
    obtain ⟨r, hr, rfl⟩ := hrow
    rw [List.length_eraseIdx, List.length_eraseIdx, h2 r hr]

theorem shapeOK_applyOps {α : Type} (nf : ℕ) (ops : List (PointOp α)) (s : TouchTable α)
    (h : shapeOK nf s = true) : shapeOK nf (applyOps s ops) = true := by
  induction ops generalizing s with
  | nil => exact h
  | cons op rest ih => exact ih (applyOp s op) (shapeOK_applyOp s nf op h)

/-- Claim C7: after any sequence of point insertions and removals starting
from the initial configuration, `lastInside` has exactly `len(families)`
rows and every row's length equals the current `len(points)`; each
insertion appends the point and appends `false` to every row, and each
removal deletes the point and the corresponding entry of every row in the
same operation. -/
theorem claim_C7_shape_invariant :
    (∀ (s : TouchTable ℝ) (nf : ℕ) (ops : List (PointOp ℝ)),
      shapeOK nf s = true → shapeOK nf (applyOps s ops) = true) ∧
    (∀ ops : List (PointOp ℝ),
      shapeOK NewGameGrids.length (applyOps NewGameTouch ops) = true) ∧
    (∀ (s : TouchTable ℝ) (p : Vec2 ℝ),
      (addPoint s p).Points = s.Points ++ [p] ∧
      (addPoint s p).lastInside = s.lastInside.map (fun row => row ++ [false])) ∧
    (∀ (s : TouchTable ℝ) (idx : ℕ),
      (removePoint s idx).Points = s.Points.eraseIdx idx ∧
      (removePoint s idx).lastInside = s.lastInside.map (fun row => row.eraseIdx idx)) :=
  ⟨fun s nf ops h => shapeOK_applyOps nf ops s h,
    fun ops => shapeOK_applyOps NewGameGrids.length ops NewGameTouch rfl,
    fun _ _ => ⟨rfl, rfl⟩, fun _ _ => ⟨rfl, rfl⟩⟩

/-- Witness for C7: the initial table satisfies the invariant and still
does after an insertion, an in-range removal and an out-of-range removal. -/
theorem claim_C7_shape_invariant_witness :
    shapeOK 2 NewGameTouch = true ∧
      shapeOK 2 (applyOps NewGameTouch
        [PointOp.add ⟨7, 8⟩, PointOp.remove 0, PointOp.remove 9]) = true :=
  ⟨rfl, claim_C7_shape_invariant.1 NewGameTouch 2
    [PointOp.add ⟨7, 8⟩, PointOp.remove 0, PointOp.remove 9] rfl⟩

/-! ## Concrete evaluation helpers -/

theorem goRound_zero {α : Type} [LinearOrderedField α] [FloorRing α] :
    goRound (0 : α) = 0 := by
  unfold goRound
  norm_num

/-- A concrete solid family used for the C9 counterexample: vertical lines
every 60 px through the center, thickness 2. -/
noncomputable def c9fam : GridFamily ℝ :=
  { Normal := ⟨1, 0⟩, Spacing := 60, Offset := 0, Thickness := 2,
    DashLength := 0, GapLength := 0, DashPhase := 0 }

theorem c9fam_dist : detDist c9fam ⟨0, 0⟩ ⟨0, 50⟩ = 0 := by
  have hd : detDAlong c9fam ⟨0, 0⟩ ⟨0, 50⟩ = 0 := by
    simp [detDAlong, c9fam, Vec2.Dot, Vec2.Sub]
  unfold detDist detClosest closestLine nearestK
  rw [hd]
  norm_num [c9fam, goRound_zero]

theorem c9fam_inside : pointInside c9fam ⟨0, 0⟩ 100 ⟨0, 50⟩ = true := by
  unfold pointInside
  rw [if_pos, if_pos]
  · exact Or.inl (le_of_eq rfl)
  · rw [c9fam_dist]
    norm_num [c9fam]

/-- Counterexample to C9: a point inserted while already inside the band
(its stored state having been initialized to `false`) fires a trigger on
its very first evaluation, although it did not start outside and later
enter: the claim's guard fails on the code. -/
theorem claim_C9_counterexample :
    (addPoint (⟨[], [[]]⟩ : TouchTable ℝ) ⟨0, 50⟩).lastInside = [[false]] ∧
    pointInside c9fam ⟨0, 0⟩ 100 ⟨0, 50⟩ = true ∧
    tickTrigger false (pointInside c9fam ⟨0, 0⟩ 100 ⟨0, 50⟩) = true := by
  refine ⟨rfl, c9fam_inside, ?_⟩
  rw [c9fam_inside]
  rfl

/-- Amended C9: a newly inserted point's stored state is initialized to
`false`, so its first evaluation fires a trigger exactly when the point is
then inside; a point outside at its first evaluation fires no trigger
then, and after any number of outside ticks fires exactly one trigger at
its first entry. -/
theorem claim_C9_initial_state :
    (∀ (s : TouchTable ℝ) (p : Vec2 ℝ) (row : List Bool),
      row ∈ (addPoint s p).lastInside → ∃ r ∈ s.lastInside, row = r ++ [false]) ∧
    (∀ b : Bool, tickTrigger false b = b) ∧
    (∀ lastVal : Bool, tickTrigger lastVal false = false) ∧
    (∀ m : ℕ, runCellCount false (List.replicate m false ++ [true]) = 1) := by
  refine ⟨?_, fun b => by cases b <;> rfl, fun lastVal => by cases lastVal <;> rfl, ?_⟩
  · intro s p row hrow
    simp only [addPoint, List.mem_map] at hrow
    obtain ⟨r, hr, rfl⟩ := hrow
    exact ⟨r, hr, rfl⟩
  · intro m
    induction m with
    | zero => rfl
    | succ m ih =>
      simpa [List.replicate_succ, runCellCount, tickTrigger] using ih

/-- Witness for the amended C9 on a one-family, no-point table. -/
theorem claim_C9_initial_state_witness :
    [false] ∈ (addPoint (⟨[], [[]]⟩ : TouchTable ℝ) ⟨0, 50⟩).lastInside ∧
      ∃ r ∈ (⟨[], [[]]⟩ : TouchTable ℝ).lastInside, [false] = r ++ [false] :=
  ⟨by simp [addPoint], claim_C9_initial_state.1 ⟨[], [[]]⟩ ⟨0, 50⟩ [false]
    (by simp [addPoint])⟩

/-! ## Vec2.Norm evaluations -/

theorem norm_zero_eval : Vec2.Norm ⟨0, 0⟩ = (⟨0, 0⟩ : Vec2 ℝ) := by
  have h : Vec2.Len ⟨0, 0⟩ = (0 : ℝ) := by
    simp [Vec2.Len]
  unfold Vec2.Norm
  rw [if_pos h]

theorem degFamily_never_inside (center : Vec2 ℝ) (diag : ℝ) (p : Vec2 ℝ) :
    pointInside degFamily center diag p = false := by
  have hnormal : degFamily.Normal = ⟨0, 0⟩ := norm_zero_eval
  have hd : detDAlong degFamily center p = 0 := by
    unfold detDAlong
    rw [hnormal]
    simp [Vec2.Dot, Vec2.Sub]
  have hdist : detDist degFamily center p = 0 := by
    unfold detDist detClosest closestLine nearestK
    rw [hd]
    norm_num [degFamily, goRound_zero]
  unfold pointInside
  rw [if_neg]
  rw [hdist]
  norm_num [degFamily]

/-- Counterexample to C8: the code performs no construction-time
validation.  A family built from a zero-length normal (which `Vec2.Norm`
silently maps to `(0, 0)`), a negative spacing and a negative thickness is
an ordinary value, and touch detection silently evaluates on it (to
`false`) instead of failing. -/
theorem claim_C8_counterexample :
    Vec2.Norm ⟨0, 0⟩ = (⟨0, 0⟩ : Vec2 ℝ) ∧ degFamily.Normal = ⟨0, 0⟩ ∧
      degFamily.Spacing = -60 ∧ degFamily.Thickness = -1 ∧
      pointInside degFamily ⟨0, 0⟩ 100 ⟨30, 40⟩ = false :=
  ⟨norm_zero_eval, norm_zero_eval, rfl, rfl, degFamily_never_inside ⟨0, 0⟩ 100 ⟨30, 40⟩⟩

theorem norm_unit_x : Vec2.Norm ⟨1, 0⟩ = (⟨1, 0⟩ : Vec2 ℝ) := by
  have h : Vec2.Len ⟨1, 0⟩ = (1 : ℝ) := by
    simp [Vec2.Len]
  unfold Vec2.Norm
  rw [h]
  norm_num

theorem norm_unit_y : Vec2.Norm ⟨0, 1⟩ = (⟨0, 1⟩ : Vec2 ℝ) := by
  have h : Vec2.Len ⟨0, 1⟩ = (1 : ℝ) := by
    simp [Vec2.Len]
  unfold Vec2.Norm
  rw [h]
  norm_num

/-- Amended C8: no construction-time validation exists.  `Vec2.Norm` maps
a zero-length input to `(0, 0)` silently; a family with zero normal,
negative spacing and negative thickness is representable and flows into
detection as a silently degraded family for which no point is ever inside;
`NewGame` itself only builds two hard-coded valid families (unit normals,
positive spacing, non-negative thickness). -/
theorem claim_C8_no_validation :
    Vec2.Norm ⟨0, 0⟩ = (⟨0, 0⟩ : Vec2 ℝ) ∧
    (∀ (center : Vec2 ℝ) (diag : ℝ) (p : Vec2 ℝ),
      pointInside degFamily center diag p = false) ∧
    NewGameGrids.length = 2 ∧
    (∀ gf ∈ NewGameGrids, 0 < gf.Spacing ∧ 0 ≤ gf.Thickness ∧
      gf.Normal.X * gf.Normal.X + gf.Normal.Y * gf.Normal.Y = 1) := by
  refine ⟨norm_zero_eval, degFamily_never_inside, rfl, ?_⟩
  intro gf hgf
  simp only [NewGameGrids, List.mem_cons, List.not_mem_nil, or_false] at hgf
  rcases hgf with rfl | rfl
  · refine ⟨by norm_num [grid0], by norm_num [grid0], ?_⟩
    show (Vec2.Norm ⟨1, 0⟩).X * (Vec2.Norm ⟨1, 0⟩).X
      + (Vec2.Norm ⟨1, 0⟩).Y * (Vec2.Norm ⟨1, 0⟩).Y = 1
    rw [norm_unit_x]
    norm_num
  · refine ⟨by norm_num [grid1], by norm_num [grid1], ?_⟩
    show (Vec2.Norm ⟨0, 1⟩).X * (Vec2.Norm ⟨0, 1⟩).X
      + (Vec2.Norm ⟨0, 1⟩).Y * (Vec2.Norm ⟨0, 1⟩).Y = 1
    rw [norm_unit_y]
    norm_num

/-- Witness for the amended C8 on the first default family. -/
theorem claim_C8_no_validation_witness :
    grid0 ∈ NewGameGrids ∧ (0 < grid0.Spacing ∧ 0 ≤ grid0.Thickness ∧
      grid0.Normal.X * grid0.Normal.X + grid0.Normal.Y * grid0.Normal.Y = 1) :=
  ⟨by simp [NewGameGrids], claim_C8_no_validation.2.2.2 grid0 (by simp [NewGameGrids])⟩

/-- Claim C10: `Vec2.Norm` is total and guarded: it maps the zero vector
to `(0, 0)` without dividing by zero, and every nonzero vector to a vector
of length exactly 1. -/
theorem claim_C10_norm_guarded (a : Vec2 ℝ) :
    Vec2.Norm ⟨0, 0⟩ = (⟨0, 0⟩ : Vec2 ℝ) ∧
      (a ≠ ⟨0, 0⟩ → Vec2.Len (Vec2.Norm a) = 1) := by
  refine ⟨norm_zero_eval, fun ha => ?_⟩
  have hx : a.X ≠ 0 ∨ a.Y ≠ 0 := by
    by_contra h
    push_neg at h
    exact ha (by cases a with | mk x y => simp_all)
  have hsum : 0 < a.X * a.X + a.Y * a.Y := by
    rcases hx with h | h
    · exact add_pos_of_pos_of_nonneg (mul_self_pos.mpr h) (mul_self_nonneg _)
    · exact add_pos_of_nonneg_of_pos (mul_self_nonneg _) (mul_self_pos.mpr h)
  have hlen : Vec2.Len a = Real.sqrt (a.X * a.X + a.Y * a.Y) := rfl
  have hlpos : 0 < Vec2.Len a := by
    rw [hlen]
    exact Real.sqrt_pos.mpr hsum
  have hlne : Vec2.Len a ≠ 0 := ne_of_gt hlpos
  have hsq : Vec2.Len a * Vec2.Len a = a.X * a.X + a.Y * a.Y := by
    rw [hlen]
    exact Real.mul_self_sqrt hsum.le
  unfold Vec2.Norm
  rw [if_neg hlne]
  show Real.sqrt (a.X / Vec2.Len a * (a.X / Vec2.Len a)
    + a.Y / Vec2.Len a * (a.Y / Vec2.Len a)) = 1
  have harg : a.X / Vec2.Len a * (a.X / Vec2.Len a)
      + a.Y / Vec2.Len a * (a.Y / Vec2.Len a) = 1 := by
    field_simp
    linarith [hsq]
  rw [harg]
  exact Real.sqrt_one

/-- Witness for C10 at the vector `(3, 4)`. -/
theorem claim_C10_norm_guarded_witness :
    (⟨3, 4⟩ : Vec2 ℝ) ≠ ⟨0, 0⟩ ∧ Vec2.Len (Vec2.Norm ⟨3, 4⟩) = 1 :=
  ⟨by norm_num [Vec2.mk.injEq], (claim_C10_norm_guarded ⟨3, 4⟩).2
    (by norm_num [Vec2.mk.injEq])⟩

/-! ## Detector and renderer geometry on a line of the family -/

theorem det_on_line (gf : GridFamily ℝ) (center : Vec2 ℝ) (k : ℤ) (s0 : ℝ)
    (hunit : gf.Normal.X * gf.Normal.X + gf.Normal.Y * gf.Normal.Y = 1)
    (hsp : 0 < gf.Spacing) :
    detDAlong gf center ((linePoint gf center k).Add (gf.Normal.Perp.Mul s0))
      = (k : ℝ) * gf.Spacing + gf.Offset ∧
    detClosest gf center ((linePoint gf center k).Add (gf.Normal.Perp.Mul s0))
      = (k : ℝ) * gf.Spacing + gf.Offset ∧
    detS0 gf center ((linePoint gf center k).Add (gf.Normal.Perp.Mul s0)) = s0 := by
  have hd : detDAlong gf center ((linePoint gf center k).Add (gf.Normal.Perp.Mul s0))
      = (k : ℝ) * gf.Spacing + gf.Offset := by
    unfold detDAlong linePoint
    simp only [Vec2.Dot, Vec2.Add, Vec2.Sub, Vec2.Mul, Vec2.Perp]
    linear_combination ((k : ℝ) * gf.Spacing + gf.Offset) * hunit
  have hk : nearestK gf.Spacing gf.Offset ((k : ℝ) * gf.Spacing + gf.Offset) = k := by
    unfold nearestK
    rw [show ((k : ℝ) * gf.Spacing + gf.Offset - gf.Offset) / gf.Spacing = ((k : ℤ) : ℝ) by
      field_simp]
    exact goRound_intCast k
  have hcl : detClosest gf center ((linePoint gf center k).Add (gf.Normal.Perp.Mul s0))
      = (k : ℝ) * gf.Spacing + gf.Offset := by
    unfold detClosest
    rw [hd]
    unfold closestLine
    rw [hk]
  refine ⟨hd, hcl, ?_⟩
  unfold detS0 detPt
  rw [hcl]
  simp only [Vec2.Dot, Vec2.Add, Vec2.Sub, Vec2.Mul, Vec2.Perp, linePoint]
  linear_combination s0 * hunit

theorem rend_delta (gf : GridFamily ℝ) (center : Vec2 ℝ) (diag : ℝ) (k : ℤ) :
    (rendP2 gf center diag k).Sub (rendP1 gf center diag k)
      = gf.Normal.Perp.Mul (-(2 * diag)) := by
  unfold rendP2 rendP1
  simp only [Vec2.Sub, Vec2.Add, Vec2.Mul, Vec2.Perp, Vec2.mk.injEq]
  constructor <;> ring

theorem rend_len (gf : GridFamily ℝ) (center : Vec2 ℝ) (diag : ℝ) (k : ℤ)
    (hunit : gf.Normal.X * gf.Normal.X + gf.Normal.Y * gf.Normal.Y = 1)
    (hdiag : 0 < diag) :
    ((rendP2 gf center diag k).Sub (rendP1 gf center diag k)).Len = 2 * diag := by
  rw [rend_delta]
  unfold Vec2.Len
  simp only [Vec2.Mul, Vec2.Perp]
  rw [show -gf.Normal.Y * -(2 * diag) * (-gf.Normal.Y * -(2 * diag))
      + gf.Normal.X * -(2 * diag) * (gf.Normal.X * -(2 * diag)) = (2 * diag) ^ 2 by
    linear_combination (4 * diag ^ 2) * hunit]
  exact Real.sqrt_sq (by linarith)

theorem rend_param (gf : GridFamily ℝ) (center : Vec2 ℝ) (diag : ℝ) (k : ℤ) (s0 : ℝ)
    (hdash : 0 < gf.DashLength) (hgap : 0 < gf.GapLength) (hdiag : 0 < diag) :
    (linePoint gf center k).Add (gf.Normal.Perp.Mul s0)
      = (rendP1 gf center diag k).Add
          ((((rendP2 gf center diag k).Sub (rendP1 gf center diag k)).Mul
            (1 / (2 * diag))).Mul (diag - s0 - gf.DashPhase)) := by
  rw [rend_delta]
  unfold rendP1 linePoint dashShift
  rw [if_pos ⟨hdash, hgap⟩]
  simp only [Vec2.Add, Vec2.Sub, Vec2.Mul, Vec2.Perp, Vec2.mk.injEq]
  have h2d : (2 : ℝ) * diag ≠ 0 := by linarith
  constructor <;> field_simp <;> ring

theorem stroke_covers_param (p1 u : Vec2 ℝ) (start endp lam : ℝ)
    (hs : start ≤ lam) (he : lam ≤ endp) (hlt : start < endp) :
    StrokeCovers (p1.Add (u.Mul start)) (p1.Add (u.Mul endp)) (p1.Add (u.Mul lam)) := by
  refine ⟨(lam - start) / (endp - start), div_nonneg (by linarith) (by linarith),
    (div_le_one (by linarith)).mpr (by linarith), ?_⟩
  simp only [Vec2.Add, Vec2.Sub, Vec2.Mul, Vec2.mk.injEq]
  have hne : endp - start ≠ 0 := by linarith
  constructor <;> field_simp <;> ring

theorem dash_membership_param {dash gap lam L : ℝ} (hdash : 0 < dash) (hgap : 0 < gap)
    (h0 : 0 ≤ lam) (hL : lam < L) :
    dashNorm lam (dash + gap) < dash ↔
      ∃ j : ℕ, (j : ℝ) * (dash + gap) < L ∧ (j : ℝ) * (dash + gap) ≤ lam ∧
        lam < min ((j : ℝ) * (dash + gap) + dash) L := by
  have hper : (0 : ℝ) < dash + gap := by linarith
  have hfl : 0 ≤ ⌊lam / (dash + gap)⌋ := Int.floor_nonneg.mpr (div_nonneg h0 hper.le)
  have hflle : (⌊lam / (dash + gap)⌋ : ℝ) * (dash + gap) ≤ lam := by
    have h1 := Int.floor_le (lam / (dash + gap))
    have h2 : (⌊lam / (dash + gap)⌋ : ℝ) * (dash + gap) ≤ lam / (dash + gap) * (dash + gap) :=
      mul_le_mul_of_nonneg_right h1 hper.le
    rwa [div_mul_cancel₀ lam hper.ne'] at h2
  rw [dashNorm_of_nonneg hper h0]
  constructor
  · intro hm
    refine ⟨(⌊lam / (dash + gap)⌋).toNat, ?_, ?_, ?_⟩
    · rw [show (((⌊lam / (dash + gap)⌋).toNat : ℕ) : ℝ) = (⌊lam / (dash + gap)⌋ : ℝ) by
        exact_mod_cast Int.toNat_of_nonneg hfl]
      exact lt_of_le_of_lt hflle hL
    · rw [show (((⌊lam / (dash + gap)⌋).toNat : ℕ) : ℝ) = (⌊lam / (dash + gap)⌋ : ℝ) by
        exact_mod_cast Int.toNat_of_nonneg hfl]
      exact hflle
    · rw [show (((⌊lam / (dash + gap)⌋).toNat : ℕ) : ℝ) = (⌊lam / (dash + gap)⌋ : ℝ) by
        exact_mod_cast Int.toNat_of_nonneg hfl]
      exact lt_min_iff.mpr ⟨by linarith, hL⟩
  · rintro ⟨j, hjL, hjl, hjr⟩
    have hjd : lam < (j : ℝ) * (dash + gap) + dash := lt_of_lt_of_le hjr (min_le_left _ _)
    have hj : ⌊lam / (dash + gap)⌋ = (j : ℤ) := by
      rw [Int.floor_eq_iff]
      constructor
      · push_cast
        rw [le_div_iff₀ hper]
        exact hjl
      · push_cast
        rw [div_lt_iff₀ hper]
        nlinarith
    rw [hj]
    push_cast
    linarith

/-! ## A concrete dashed family for C4 -/

/-- Vertical dashed lines: spacing 60, dash 60, gap 60, phase 0. -/
noncomputable def c4fam : GridFamily ℝ :=
  { Normal := ⟨1, 0⟩, Spacing := 60, Offset := 0, Thickness := 2,
    DashLength := 60, GapLength := 60, DashPhase := 0 }

theorem c4_detM : detM c4fam ⟨0, 0⟩ 100 ⟨0, 40⟩ = 60 := by
  have hd : detDAlong c4fam ⟨0, 0⟩ ⟨0, 40⟩ = 0 := by
    simp [detDAlong, c4fam, Vec2.Dot, Vec2.Sub]
  have hcl : detClosest c4fam ⟨0, 0⟩ ⟨0, 40⟩ = 0 := by
    unfold detClosest closestLine nearestK
    rw [hd]
    norm_num [c4fam, goRound_zero]
  have hs0 : detS0 c4fam ⟨0, 0⟩ ⟨0, 40⟩ = 40 := by
    unfold detS0 detPt
    rw [hcl]
    simp [c4fam, Vec2.Perp, Vec2.Dot, Vec2.Add, Vec2.Sub, Vec2.Mul]
  have hpos : detPos c4fam ⟨0, 0⟩ 100 ⟨0, 40⟩ = 60 := by
    unfold detPos
    rw [hs0]
    norm_num [c4fam]
  unfold detM
  rw [hpos, show c4fam.DashLength + c4fam.GapLength = (120 : ℝ) by norm_num [c4fam],
    dashNorm_of_nonneg (by norm_num) (by norm_num)]
  norm_num

theorem c4_dist : detDist c4fam ⟨0, 0⟩ ⟨0, 40⟩ = 0 := by
  have hd : detDAlong c4fam ⟨0, 0⟩ ⟨0, 40⟩ = 0 := by
    simp [detDAlong, c4fam, Vec2.Dot, Vec2.Sub]
  unfold detDist detClosest closestLine nearestK
  rw [hd]
  norm_num [c4fam, goRound_zero]

theorem c4_not_inside : pointInside c4fam ⟨0, 0⟩ 100 ⟨0, 40⟩ = false := by
  unfold pointInside
  rw [if_pos, if_neg]
  · simp only [decide_eq_false_iff_not, not_lt, c4_detM]
    norm_num [c4fam]
  · norm_num [c4fam]
  · rw [c4_dist]
    norm_num [c4fam]

theorem c4_p1 : rendP1 c4fam ⟨0, 0⟩ 100 0 = (⟨0, 100⟩ : Vec2 ℝ) := by
  unfold rendP1 linePoint dashShift
  rw [if_pos ⟨by norm_num [c4fam], by norm_num [c4fam]⟩]
  simp only [c4fam, Vec2.Add, Vec2.Sub, Vec2.Mul, Vec2.Perp, Vec2.mk.injEq]
  norm_num

theorem c4_p2 : rendP2 c4fam ⟨0, 0⟩ 100 0 = (⟨0, -100⟩ : Vec2 ℝ) := by
  unfold rendP2 linePoint dashShift
  rw [if_pos ⟨by norm_num [c4fam], by norm_num [c4fam]⟩]
  simp only [c4fam, Vec2.Add, Vec2.Sub, Vec2.Mul, Vec2.Perp, Vec2.mk.injEq]
  norm_num

theorem c4_sub : (⟨0, -100⟩ : Vec2 ℝ).Sub ⟨0, 100⟩ = ⟨0, -200⟩ := by
  simp only [Vec2.Sub, Vec2.mk.injEq]
  norm_num

theorem c4_len : Vec2.Len (⟨0, -200⟩ : Vec2 ℝ) = 200 := by
  unfold Vec2.Len
  rw [show ((0 : ℝ) * 0 + -200 * -200 : ℝ) = 200 ^ 2 by norm_num]
  exact Real.sqrt_sq (by norm_num)

theorem c4_renderer : rendererEmits c4fam ⟨0, 0⟩ 100 ⟨0, 40⟩ := by
  refine ⟨0, ?_, ?_, ?_⟩
  · unfold kMinOf
    norm_num [c4fam]
  · unfold kMaxOf
    have h : (0 : ℤ) ≤ ⌈((100 : ℝ) - c4fam.Offset) / c4fam.Spacing⌉ :=
      Int.ceil_nonneg (by norm_num [c4fam])
    omega
  · unfold DashedLineCovers
    rw [c4_p1, c4_p2, c4_sub, c4_len]
    refine ⟨by norm_num, ?_⟩
    rw [if_neg (by norm_num [c4fam])]
    refine ⟨0, by norm_num [c4fam], ?_⟩
    refine ⟨1, by norm_num, le_refl 1, ?_⟩
    show (⟨0, 40⟩ : Vec2 ℝ) = _
    norm_num [c4fam, Vec2.Add, Vec2.Sub, Vec2.Mul, Vec2.mk.injEq, min_def]

/-- Counterexample to C4: for the dashed family `c4fam` with
`center = (0,0)` and `diag = 100`, the point `(0, 40)` lies exactly at the
closed endpoint of the first stroked dash segment (the renderer emits it),
yet the detector's drawn-segment test fails there (`m = 60` is not
`< 60`): the claimed iff between the detector's test and the renderer's
emitted segments is false at this input. -/
theorem claim_C4_counterexample :
    rendererEmits c4fam ⟨0, 0⟩ 100 ⟨0, 40⟩ ∧
      ¬ detM c4fam ⟨0, 0⟩ 100 ⟨0, 40⟩ < c4fam.DashLength ∧
      pointInside c4fam ⟨0, 0⟩ 100 ⟨0, 40⟩ = false := by
  refine ⟨c4_renderer, ?_, c4_not_inside⟩
  rw [c4_detM]
  norm_num [c4fam]

/-- Amended C4: for a dashed family with unit normal and positive spacing
and any point `q` on line `k` at tangential coordinate `s0`, the
detector's `pos` equals the renderer's arc-length parameter
`lam = diag - s0 - dashPhase` of `q` measured from the anchored endpoint
`p1` (same anchor, same sign convention), and, restricted to the drawn
span `0 ≤ lam < 2*diag`, the detector's drawn-segment test
`m < dashLength` holds iff `lam` falls in the half-open part
`[j*period, min(j*period + dashLength, L))` of an emitted segment; in that
case the renderer does emit the point.  (The unrestricted iff of the
original claim fails at closed stroke endpoints and outside the drawn
span.) -/
theorem claim_C4_dash_agreement (gf : GridFamily ℝ) (center : Vec2 ℝ)
    (diag : ℝ) (k : ℤ) (s0 lam : ℝ) (q : Vec2 ℝ)
    (hunit : gf.Normal.X * gf.Normal.X + gf.Normal.Y * gf.Normal.Y = 1)
    (hsp : 0 < gf.Spacing) (hdash : 0 < gf.DashLength) (hgap : 0 < gf.GapLength)
    (hdiag : 0 < diag)
    (hq : q = (linePoint gf center k).Add (gf.Normal.Perp.Mul s0))
    (hlam : lam = diag - s0 - gf.DashPhase) :
    detPos gf center diag q = lam ∧
    ((rendP2 gf center diag k).Sub (rendP1 gf center diag k)).Len = 2 * diag ∧
    q = (rendP1 gf center diag k).Add
      ((((rendP2 gf center diag k).Sub (rendP1 gf center diag k)).Mul
        (1 / (2 * diag))).Mul lam) ∧
    (0 ≤ lam → lam < 2 * diag →
      (detM gf center diag q < gf.DashLength ↔
        ∃ j : ℕ, (j : ℝ) * (gf.DashLength + gf.GapLength) < 2 * diag ∧
          (j : ℝ) * (gf.DashLength + gf.GapLength) ≤ lam ∧
          lam < min ((j : ℝ) * (gf.DashLength + gf.GapLength) + gf.DashLength)
            (2 * diag))) ∧
    (0 ≤ lam → lam < 2 * diag → kMinOf gf diag ≤ k → k ≤ kMaxOf gf diag →
      detM gf center diag q < gf.DashLength → rendererEmits gf center diag q) := by
  obtain ⟨hdA, hcl, hs0⟩ := det_on_line gf center k s0 hunit hsp
  have h1 : detPos gf center diag q = lam := by
    rw [hq, hlam]
    unfold detPos
    rw [hs0]
  have h2 : ((rendP2 gf center diag k).Sub (rendP1 gf center diag k)).Len = 2 * diag :=
    rend_len gf center diag k hunit hdiag
  have h3 : q = (rendP1 gf center diag k).Add
      ((((rendP2 gf center diag k).Sub (rendP1 gf center diag k)).Mul
        (1 / (2 * diag))).Mul lam) := by
    rw [hq, hlam]
    exact rend_param gf center diag k s0 hdash hgap hdiag
  have hM : detM gf center diag q = dashNorm lam (gf.DashLength + gf.GapLength) := by
    unfold detM
    rw [h1]
  refine ⟨h1, h2, h3,
    fun h0 hL => by rw [hM]; exact dash_membership_param hdash hgap h0 hL, ?_⟩
  intro h0 hL hkmin hkmax hm
  rw [hM] at hm
  obtain ⟨j, hjL, hjl, hjr⟩ := (dash_membership_param hdash hgap h0 hL).mp hm
  refine ⟨k, hkmin, hkmax, ?_⟩
  unfold DashedLineCovers
  rw [h2]
  refine ⟨by linarith, ?_⟩
  rw [if_neg (not_or.mpr ⟨not_le.mpr hdash, not_le.mpr hgap⟩)]
  refine ⟨j, hjL, ?_⟩
  have hcover := stroke_covers_param (rendP1 gf center diag k)
    (((rendP2 gf center diag k).Sub (rendP1 gf center diag k)).Mul (1 / (2 * diag)))
    ((j : ℝ) * (gf.DashLength + gf.GapLength))
    (min ((j : ℝ) * (gf.DashLength + gf.GapLength) + gf.DashLength) (2 * diag))
    lam hjl (le_of_lt hjr) (lt_of_le_of_lt hjl hjr)
  rw [← h3] at hcover
  exact hcover

/-- Witness for the amended C4 at `c4fam`, `center = (0,0)`, `diag = 100`,
`k = 0`, `s0 = 70`, `lam = 30`, `q = (0, 70)`. -/
theorem claim_C4_dash_agreement_witness :
    (c4fam.Normal.X * c4fam.Normal.X + c4fam.Normal.Y * c4fam.Normal.Y = 1) ∧
    (0 : ℝ) < c4fam.Spacing ∧ (0 : ℝ) < c4fam.DashLength ∧
    (0 : ℝ) < c4fam.GapLength ∧ (0 : ℝ) < 100 ∧
    (⟨0, 70⟩ : Vec2 ℝ) = (linePoint c4fam ⟨0, 0⟩ 0).Add (c4fam.Normal.Perp.Mul 70) ∧
    (30 : ℝ) = 100 - 70 - c4fam.DashPhase ∧
    detPos c4fam ⟨0, 0⟩ 100 ⟨0, 70⟩ = 30 :=
  ⟨by norm_num [c4fam], by norm_num [c4fam], by norm_num [c4fam], by norm_num [c4fam],
    by norm_num,
    by norm_num [linePoint, c4fam, Vec2.Add, Vec2.Mul, Vec2.Perp, Vec2.mk.injEq],
    by norm_num [c4fam],
    (claim_C4_dash_agreement c4fam ⟨0, 0⟩ 100 0 70 30 ⟨0, 70⟩
      (by norm_num [c4fam]) (by norm_num [c4fam]) (by norm_num [c4fam])
      (by norm_num [c4fam]) (by norm_num)
      (by norm_num [linePoint, c4fam, Vec2.Add, Vec2.Mul, Vec2.Perp, Vec2.mk.injEq])
      (by norm_num [c4fam])).1⟩
